import Mathlib

/-!
Shallow embedding of src/terms/convert.py (IVOA VOResource vocabulary
converter, Python 2) and proofs about it.

Conventions of the embedding:
* Python strings are Lean `String` (the script works on UTF-8 text; the
  `encode("utf-8")`/`decode("utf-8")` round-trips are the identity at this
  level of abstraction).
* Fallible Python code is `Except PyErr` with one constructor per Python
  exception class that the script can actually raise.
* The CSV layer (`csv.reader` with delimiter ";") is abstracted: a terms
  file is a `List (List String)` of already-split records.
* Python list truthiness of possibly-`None` strings is modelled explicitly
  (see `pyOrNone`, `pyTruthy`).
-/

/-- Python exceptions the script can raise (beyond `ReportableError`). -/
inductive PyErr where
  | typeError
  | valueError
  | indexError
  | attributeError
  | osError
deriving Repr, DecidableEq

/-- ASCII letter test, the character class of the regular expression
in `is_URI` (source line 195: the class is written there as a range pair). -/
def isAsciiLetter (c : Char) : Bool :=
  (('a' ≤ c) && (c ≤ 'z')) || (('A' ≤ c) && (c ≤ 'Z'))

/-- One backtracking position of the regular expression used by `is_URI`
(source line 195), first alternative: `k` letters followed by "://". -/
def matchesSchemeAt (cs : List Char) (k : Nat) : Bool :=
  (1 ≤ k) && ((cs.take k).all isAsciiLetter) && ((cs.drop k).take 3 == [':', '/', '/'])

/-- `is_URI` (source lines 190-195): an anchored regular-expression match of
one-or-more ASCII letters followed by "://", or a leading "#".  The
backtracking search over the split position is the bounded `any`. -/
def is_URI (s : String) : Bool :=
  ((List.range (s.data.length + 1)).any (matchesSchemeAt s.data))
    || (s.data.take 1 == ['#'])

/-- The `replace` step on the quoted branch of `make_ttl_literal`
(source line 286): every double quote becomes backslash-quote. -/
def escape_dquotes (s : String) : String :=
  ⟨s.data.flatMap (fun c => if c = '"' then ['\\', '"'] else [c])⟩

/-- `make_ttl_literal` (source lines 273-286). -/
def make_ttl_literal (s : String) : String :=
  if is_URI s then "<" ++ s ++ ">"
  else
    if s.data.contains '\n' then "\"\"\"" ++ s ++ "\"\"\""
    else "\"" ++ escape_dquotes s ++ "\""

section IsUriLemmas

/-- The predicate the spec describes: the string begins with one or more
ASCII letters followed by "://", or begins with "#". -/
def UriShaped (s : String) : Prop :=
  (∃ k, 1 ≤ k ∧ (s.data.take k).all isAsciiLetter = true
      ∧ (s.data.drop k).take 3 = [':', '/', '/'])
    ∨ s.data.take 1 = ['#']

theorem is_URI_iff (s : String) : is_URI s = true ↔ UriShaped s := by
  unfold is_URI UriShaped
  rw [Bool.or_eq_true, List.any_eq_true]
  constructor
  · rintro (⟨k, _, hk⟩ | h)
    · unfold matchesSchemeAt at hk
      simp only [Bool.and_eq_true, decide_eq_true_eq, beq_iff_eq] at hk
      exact Or.inl ⟨k, hk.1.1, hk.1.2, hk.2⟩
    · exact Or.inr (by simpa using h)
  · rintro (⟨k, hk1, hall, hdrop⟩ | h)
    · left
      refine ⟨k, ?_, ?_⟩
      · have h3 : 3 ≤ (s.data.drop k).length := by
          have := congrArg List.length hdrop
          simp only [List.length_take, List.length_cons, List.length_nil] at this
          omega
        have h4 : s.data.length - k ≥ 3 := by
          simpa [List.length_drop] using h3
        simp only [List.mem_range]
        omega
      · unfold matchesSchemeAt
        simp only [Bool.and_eq_true, decide_eq_true_eq, beq_iff_eq]
        exact ⟨⟨hk1, hall⟩, hdrop⟩
    · exact Or.inr (by simpa using h)

theorem is_URI_eq_false_iff (s : String) : is_URI s = false ↔ ¬ UriShaped s := by
  rw [← is_URI_iff]
  cases h : is_URI s <;> simp

end IsUriLemmas

section StringHeadHelpers

theorem data_append (a b : String) : (a ++ b).data = a.data ++ b.data := by
  exact String.data_append a b

/-- The first character of the URI rendering is '<'. -/
theorem head_uri_form (s : String) : ("<" ++ s ++ ">").data.head? = some '<' := by
  simp [data_append]

/-- The first character of either quoted rendering is '"'. -/
theorem head_tq_form (s : String) :
    ("\"\"\"" ++ s ++ "\"\"\"").data.head? = some '"' := by
  simp [data_append]

theorem head_q_form (s : String) :
    ("\"" ++ escape_dquotes s ++ "\"").data.head? = some '"' := by
  simp [data_append]

end StringHeadHelpers

/-- C3 helper: `make_ttl_literal` returns the angle-bracket form exactly on
URI-shaped strings. -/
theorem make_ttl_literal_uri_char (s : String) :
    make_ttl_literal s = "<" ++ s ++ ">" ↔ UriShaped s := by
  constructor
  · intro h
    by_contra hn
    have hf : is_URI s = false := (is_URI_eq_false_iff s).2 hn
    unfold make_ttl_literal at h
    rw [hf] at h
    simp only [Bool.false_eq_true, if_false] at h
    by_cases hnl : s.data.contains '\n'
    · rw [if_pos hnl] at h
      have := congrArg (fun t => t.data.head?) h
      simp only at this
      rw [head_tq_form, head_uri_form] at this
      exact absurd this (by simp)
    · rw [if_neg hnl] at h
      have := congrArg (fun t => t.data.head?) h
      simp only at this
      rw [head_q_form, head_uri_form] at this
      exact absurd this (by simp)
  · intro h
    unfold make_ttl_literal
    rw [(is_URI_iff s).2 h]
    simp

/-- `Term` (source lines 289-300): predicate, label, description, optional
parent and synonym, constructed in that order. -/
structure Term where
  predicate : String
  label : String
  description : String
  parent : Option String := none
  synonym : Option String := none
deriving Repr, DecidableEq

instance : Inhabited Term := ⟨⟨"", "", "", none, none⟩⟩

/-- Python truthiness of an optional string (`if self.parent:`):
`None` and the empty string are falsy. -/
def pyTruthy (o : Option String) : Bool :=
  match o with
  | none => false
  | some s => s ≠ ""

/-- `Term.as_ttl` (source lines 302-324): the template list is extended for
parent and synonym, joined with ";\n  " and terminated with ".".  Filling
the placeholders before joining is equivalent to the source's join-then-format
because the placeholder names are distinct. -/
def Term.as_ttl (t : Term) : String :=
  let template := ["<#" ++ t.predicate ++ "> a rdf:Property",
    "rdfs:label " ++ make_ttl_literal t.label,
    "rdfs:comment " ++ make_ttl_literal t.description]
  let template := if pyTruthy t.parent
    then template ++ ["rdfs:subPropertyOf " ++ make_ttl_literal (t.parent.getD "")]
    else template
  let template := if pyTruthy t.synonym
    then template ++ ["owl:equivalentProperty " ++ make_ttl_literal (t.synonym.getD ""),
      "a owl:DeprecatedProperty"]
    else template
  String.intercalate ";\n  " template ++ "."

/-- The tiny DOM of the script (`_Element`, source lines 201-254), reduced to
the tree it builds: an element with a tag, attributes and children, or a text
node.  Attribute names are stored after the `__call__` rewriting (trailing
underscore stripped, underscores to dashes); consecutive text passed to
`__getitem__` is kept as text children in order. -/
inductive HNode where
  | el : String → List (String × String) → List HNode → HNode
  | txt : String → HNode
deriving Repr

instance : Inhabited HNode := ⟨HNode.txt ""⟩

def HNode.children : HNode → List HNode
  | .el _ _ cs => cs
  | .txt _ => []

def HNode.childAt (n : HNode) (i : Nat) : HNode :=
  n.children.getD i default

/-- `self.parent or ""` / `self.synonym or ""` (source lines 333-334). -/
def pyOrEmpty (o : Option String) : String :=
  match o with
  | none => ""
  | some s => s

/-- `Term.as_html` (source lines 326-334): one table row with five cells. -/
def Term.as_html (t : Term) : HNode :=
  .el "tr" [] [
    .el "td" [("class", "predicate")] [.txt t.predicate],
    .el "td" [("class", "label")] [.txt t.label],
    .el "td" [("class", "description")] [.txt t.description],
    .el "td" [("class", "parent")] [.txt (pyOrEmpty t.parent)],
    .el "td" [("class", "preferred")] [.txt (pyOrEmpty t.synonym)]]

/-! ## The hierarchy parser (`parse_terms`, source lines 499-534) -/

/-- `[(s or None) for s in rec]` (source line 507) applied to one field. -/
def pyOrNone (s : String) : Option String :=
  if s = "" then none else some s

/-- Python list indexing: out of range raises `IndexError`. -/
def getItem (row : List (Option String)) (i : Nat) : Except PyErr (Option String) :=
  match row.get? i with
  | some v => .ok v
  | none => .error .indexError

/-- Digit-sequence accumulator for `strToInt`. -/
def digitsToNatAux : List Char → Nat → Option Nat
  | [], acc => some acc
  | c :: rest, acc =>
    if ('0' ≤ c) && (c ≤ '9')
    then digitsToNatAux rest (acc * 10 + (c.toNat - 48))
    else none

/-- A non-empty decimal digit sequence, else `none`. -/
def digitsToNat (cs : List Char) : Option Nat :=
  match cs with
  | [] => none
  | _ => digitsToNatAux cs 0

/-- The integer syntax accepted by Python's `int(...)` on the strings this
script sees: an optional sign followed by decimal digits.  (Python's `int`
also tolerates surrounding whitespace, which no input of interest uses.) -/
def strToInt (s : String) : Option Int :=
  match s.data with
  | '-' :: rest => (digitsToNat rest).map (fun n => -(n : Int))
  | '+' :: rest => (digitsToNat rest).map (fun n => (n : Int))
  | cs => (digitsToNat cs).map (fun n => (n : Int))

/-- `int(...)` on a possibly-`None` field: `int(None)` is a `TypeError`,
a non-numeric string a `ValueError`. -/
def pyInt (v : Option String) : Except PyErr Int :=
  match v with
  | none => .error .typeError
  | some s =>
    match strToInt s with
    | some n => .ok n
    | none => .error .valueError

/-- `re.match(pattern, x)` demands a string: on `None` it raises
`TypeError`.  This guards every call of `is_URI` inside `parse_terms`. -/
def reMatchArg (v : Option String) : Except PyErr String :=
  match v with
  | none => .error .typeError
  | some s => .ok s

/-- `x.decode("utf-8")`: on `None` there is no `decode` attribute
(`AttributeError`); on a string it is the identity at this abstraction. -/
def pyDecode (v : Option String) : Except PyErr String :=
  match v with
  | none => .error .attributeError
  | some s => .ok s

/-- Parser state of `parse_terms`: the ancestor stack (head of the list is
the Python list's last element, i.e. the top), the most recently normalized
predicate, and the terms emitted so far (in emission order). -/
structure PState where
  parent_stack : List (Option String)
  last_predicate : Option String
  terms : List Term
deriving Repr, DecidableEq

def initState : PState := ⟨[], none, []⟩

/-- The stack left by the pop loop on its non-raising path
(`target = level - 1 ≥ 0`): pops from the top until the length is at
most `target`. -/
def dropPops (target : Int) (s : List (Option String)) :
    List (Option String) :=
  s.drop (s.length - target.toNat)

/-- The `while hierarchy_level-1 < len(parent_stack): parent_stack.pop()`
loop (source lines 512-513).  For a non-negative target it pops from the
top until the length is at most `target`; for a negative target
(hierarchy level ≤ 0) the loop condition stays true after the stack is
exhausted and `parent_stack.pop()` raises an `IndexError` on the empty
list. -/
def popTo (target : Int) (s : List (Option String)) :
    Except PyErr (List (Option String)) :=
  if target < 0 then .error .indexError
  else .ok (dropPops target s)

/-- The stack adjustment of one record (source lines 510-513) for a
positive hierarchy level: a single conditional push of `last_predicate`,
then the pops.  `processRec` reaches this value through `popTo`, which
raises instead of producing it when the level is not positive. -/
def adjStack (stack : List (Option String)) (lastPred : Option String)
    (level : Int) : List (Option String) :=
  dropPops (level - 1)
    (if (stack.length : Int) < level - 1 then lastPred :: stack else stack)

/-- `parent_stack[-1]` if the stack is truthy, else `None`
(source lines 518-521). -/
def stackParent (stack : List (Option String)) : Option String :=
  match stack with
  | [] => none
  | p :: _ => p

/-- One iteration of the `parse_terms` loop body (source lines 506-532),
with every fallible Python operation explicit and in source order. -/
def processRec (st : PState) (row : List String) : Except PyErr PState :=
  let rec0 := row.map pyOrNone
  match getItem rec0 1 with
  | .error e => .error e
  | .ok f1 =>
    match pyInt f1 with
    | .error e => .error e
    | .ok hierarchy_level =>
      match popTo (hierarchy_level - 1)
          (if (st.parent_stack.length : Int) < hierarchy_level - 1
            then st.last_predicate :: st.parent_stack
            else st.parent_stack) with
      | .error e => .error e
      | .ok stack2 =>
        match getItem rec0 0 with
        | .error e => .error e
        | .ok f0 =>
          match reMatchArg f0 with
          | .error e => .error e
          | .ok p0 =>
            let lastPred := if is_URI p0 then p0 else "#" ++ p0
            let parent := stackParent stack2
            match (if rec0.length < 5 then Except.ok none
              else
                match getItem rec0 4 with
                | .error e => .error e
                | .ok f4 =>
                  match reMatchArg f4 with
                  | .error e => .error e
                  | .ok s4 =>
                    .ok (some (if is_URI s4 then s4 else "#" ++ s4))) with
            | .error e => .error e
            | .ok synonym =>
              match getItem rec0 2 with
              | .error e => .error e
              | .ok f2 =>
                match pyDecode f2 with
                | .error e => .error e
                | .ok label =>
                  match getItem rec0 3 with
                  | .error e => .error e
                  | .ok f3 =>
                    match pyDecode f3 with
                    | .error e => .error e
                    | .ok descr =>
                      .ok ⟨stack2, some lastPred,
                        st.terms ++ [⟨p0, label, descr, parent, synonym⟩]⟩

/-- The `for rec in csv.reader(f, ...)` loop: records processed in order,
the first exception aborting the run. -/
def runRecs : PState → List (List String) → Except PyErr PState
  | st, [] => .ok st
  | st, row :: rest =>
    match processRec st row with
    | .error e => .error e
    | .ok st' => runRecs st' rest

/-- `parse_terms` (source lines 499-534) on the decoded CSV records. -/
def parse_terms (rows : List (List String)) : Except PyErr (List Term) :=
  match runRecs initState rows with
  | .error e => .error e
  | .ok st => .ok st.terms

/-! ## A well-formed source record and the pure view of one parser step -/

/-- A structured view of one CSV record: the raw fields, plus the integer
value `level` that the level field denotes. -/
structure SRec where
  predicate : String
  levelStr : String
  level : Nat
  label : String
  description : String
  synonym : Option String
deriving Repr, DecidableEq

instance : Inhabited SRec := ⟨⟨"", "", 0, "", "", none⟩⟩

/-- The CSV row carrying a structured record (4 or 5 fields). -/
def toRow (r : SRec) : List String :=
  [r.predicate, r.levelStr, r.label, r.description] ++
    (match r.synonym with | none => [] | some s => [s])

/-- The record shapes on which the parser body raises nothing: non-empty
predicate/label/description, a level field denoting the positive integer
`level`, and no empty synonym field. -/
def wellFormedRec (r : SRec) : Prop :=
  r.predicate ≠ "" ∧ strToInt r.levelStr = some (r.level : Int) ∧ 1 ≤ r.level
    ∧ r.label ≠ "" ∧ r.description ≠ "" ∧ r.synonym ≠ some ""

instance (r : SRec) : Decidable (wellFormedRec r) := by
  unfold wellFormedRec; infer_instance

/-- Predicate normalization (source lines 515-516): prefix "#" unless the
string already looks like a URI.  The same normalization is applied to a
present synonym (source lines 527-528). -/
def normPred (p : String) : String :=
  if is_URI p then p else "#" ++ p

/-- The `Term` object appended for a record (source lines 530-532): note the
predicate field receives the raw `rec[0]`, not the normalized form. -/
def stepTerm (st : PState) (r : SRec) : Term :=
  ⟨r.predicate, r.label, r.description,
    stackParent (adjStack st.parent_stack st.last_predicate (r.level : Int)),
    r.synonym.map normPred⟩

/-- The state transformer of one loop iteration on a well-formed record. -/
def pureStep (st : PState) (r : SRec) : PState :=
  ⟨adjStack st.parent_stack st.last_predicate (r.level : Int),
    some (normPred r.predicate),
    st.terms ++ [stepTerm st r]⟩

theorem processRec_toRow (st : PState) (r : SRec) (h : wellFormedRec r) :
    processRec st (toRow r) = .ok (pureStep st r) := by
  obtain ⟨hp, hl, hl1, hlab, hdesc, hsyn⟩ := h
  have hlne : r.levelStr ≠ "" := by
    intro he
    rw [he] at hl
    simp [strToInt, digitsToNat] at hl
  have hng : ¬ ((r.level : Int) - 1 < 0) := by omega
  cases hs : r.synonym with
  | none =>
    simp [processRec, toRow, hs, pyOrNone, getItem, pyInt, reMatchArg, pyDecode,
      hp, hlne, hl, hlab, hdesc, popTo, hng, pureStep, stepTerm, adjStack,
      normPred]
  | some s =>
    have hsne : s ≠ "" := by
      intro he
      rw [he] at hs
      exact hsyn hs
    simp [processRec, toRow, hs, pyOrNone, getItem, pyInt, reMatchArg, pyDecode,
      hp, hlne, hl, hlab, hdesc, hsne, popTo, hng, pureStep, stepTerm, adjStack,
      normPred]

theorem runRecs_map_toRow (recs : List SRec) (st : PState)
    (h : ∀ r ∈ recs, wellFormedRec r) :
    runRecs st (recs.map toRow) = .ok (recs.foldl pureStep st) := by
  induction recs generalizing st with
  | nil => rfl
  | cons r rest ih =>
    simp only [List.map_cons, runRecs, List.foldl_cons]
    rw [processRec_toRow st r (h r (by simp))]
    exact ih _ (fun x hx => h x (by simp [hx]))

/-- Parser state after the first `k` records. -/
def stateAt (recs : List SRec) (k : Nat) : PState :=
  (recs.take k).foldl pureStep initState

theorem parse_terms_map_toRow (recs : List SRec)
    (h : ∀ r ∈ recs, wellFormedRec r) :
    parse_terms (recs.map toRow) = .ok (stateAt recs recs.length).terms := by
  unfold parse_terms stateAt
  rw [List.take_length, runRecs_map_toRow recs initState h]

/-! ## Helper lemmas for the stack invariant -/

theorem getD_mem {α : Type} [Inhabited α] (l : List α) (i : Nat)
    (h : i < l.length) : l.getD i default ∈ l := by
  rw [List.getD_eq_getElem?_getD, List.getElem?_eq_getElem h]
  exact List.getElem_mem h

theorem getD_drop {α : Type} (l : List α) (n i : Nat) (d : α) :
    (l.drop n).getD i d = l.getD (n + i) d := by
  rw [List.getD_eq_getElem?_getD, List.getD_eq_getElem?_getD, List.getElem?_drop]

theorem getD_append_left {α : Type} (l₁ l₂ : List α) (i : Nat) (d : α)
    (h : i < l₁.length) : (l₁ ++ l₂).getD i d = l₁.getD i d := by
  rw [List.getD_eq_getElem?_getD, List.getD_eq_getElem?_getD,
    List.getElem?_append, if_pos h]

theorem getD_append_length {α : Type} (l₁ : List α) (x : α) (d : α) :
    (l₁ ++ [x]).getD l₁.length d = x := by
  rw [List.getD_eq_getElem?_getD, List.getElem?_append_right (le_refl _)]
  simp

theorem take_succ_getD (recs : List SRec) (k : Nat) (hk : k < recs.length) :
    recs.take (k + 1) = recs.take k ++ [recs.getD k default] := by
  rw [List.take_succ, List.getElem?_eq_getElem hk]
  simp [List.getD_eq_getElem?_getD, List.getElem?_eq_getElem hk]

theorem stateAt_zero (recs : List SRec) : stateAt recs 0 = initState := rfl

theorem stateAt_succ (recs : List SRec) (k : Nat) (hk : k < recs.length) :
    stateAt recs (k + 1) = pureStep (stateAt recs k) (recs.getD k default) := by
  unfold stateAt
  rw [take_succ_getD recs k hk, List.foldl_append]
  rfl

/-- The most recent record at hierarchy depth `d` in a record prefix. -/
def lastAt (pre : List SRec) (d : Nat) : Option SRec :=
  (pre.filter (fun r => r.level == d)).getLast?

theorem lastAt_append_ne (pre : List SRec) (r : SRec) (d : Nat)
    (h : r.level ≠ d) : lastAt (pre ++ [r]) d = lastAt pre d := by
  unfold lastAt
  rw [List.filter_append]
  have hb : (r.level == d) = false := by simpa using h
  simp [List.filter_cons, hb]

theorem lastAt_append_eq (pre : List SRec) (r : SRec) (d : Nat)
    (h : r.level = d) : lastAt (pre ++ [r]) d = some r := by
  unfold lastAt
  rw [List.filter_append]
  have hb : (r.level == d) = true := by simpa using h
  simp [List.filter_cons, hb, List.getLast?_concat]

/-- The single conditional push of the parser, when the level jumps past the
stack depth (source lines 510-511): exactly one entry is pushed and the pop
loop does nothing. -/
theorem adjStack_push (stack : List (Option String)) (lp : Option String)
    (level : Nat) (h : stack.length + 1 < level) :
    adjStack stack lp (level : Int) = lp :: stack := by
  unfold adjStack dropPops
  rw [if_pos (by omega : (stack.length : Int) < (level : Int) - 1)]
  have ht : ((level : Int) - 1).toNat = level - 1 := by omega
  rw [ht]
  have : (lp :: stack).length - (level - 1) = 0 := by
    simp only [List.length_cons]
    omega
  rw [this, List.drop_zero]

/-- Without a level jump, the parser only pops down to depth `level - 1`
(source lines 512-513). -/
theorem adjStack_nopush (stack : List (Option String)) (lp : Option String)
    (level : Nat) (h : level ≤ stack.length + 1) :
    adjStack stack lp (level : Int)
      = stack.drop (stack.length - (level - 1)) := by
  unfold adjStack dropPops
  rw [if_neg (by omega : ¬ (stack.length : Int) < (level : Int) - 1)]
  have ht : ((level : Int) - 1).toNat = level - 1 := by omega
  rw [ht]

/-- The stack invariant of `parse_terms` on level-valid inputs: after `k ≥ 1`
records, the stack has exactly `level(k-1) - 1` entries, the entry at depth
`d` (index `j` from the top, `d = length - j`) is the normalized predicate of
the most recent record at level `d`, and every depth up to `level(k-1) - 1`
is populated. -/
theorem stack_invariant (recs : List SRec)
    (hwf : ∀ r ∈ recs, wellFormedRec r)
    (hfirst : 0 < recs.length → (recs.getD 0 default).level = 1)
    (hstep : ∀ i, i + 1 < recs.length →
      (recs.getD (i+1) default).level ≤ (recs.getD i default).level + 1) :
    ∀ k, 1 ≤ k → k ≤ recs.length →
      ((stateAt recs k).parent_stack.length
          = (recs.getD (k-1) default).level - 1)
      ∧ ((stateAt recs k).last_predicate
          = some (normPred (recs.getD (k-1) default).predicate))
      ∧ (∀ j, j < (stateAt recs k).parent_stack.length →
          (stateAt recs k).parent_stack.getD j none
            = (lastAt (recs.take k)
                ((stateAt recs k).parent_stack.length - j)).map
                  (fun r => normPred r.predicate))
      ∧ (∀ d, 1 ≤ d → d + 1 ≤ (recs.getD (k-1) default).level →
          (lastAt (recs.take k) d).isSome = true) := by
  intro k hk
  induction k, hk using Nat.le_induction with
  | base =>
    intro hlen
    have h0 : 0 < recs.length := hlen
    have hL : (recs.getD 0 default).level = 1 := hfirst h0
    have hst : stateAt recs 1 = pureStep initState (recs.getD 0 default) := by
      have := stateAt_succ recs 0 h0
      rwa [stateAt_zero] at this
    have hstack : (stateAt recs 1).parent_stack = [] := by
      rw [hst]
      simp only [pureStep]
      rw [hL]
      rfl
    refine ⟨?_, ?_, ?_, ?_⟩
    · rw [hstack, hL]
      rfl
    · rw [hst]; rfl
    · intro j hj
      rw [hstack] at hj
      simp at hj
    · intro d hd1 hd2
      rw [hL] at hd2
      omega
  | succ n hn ih =>
    intro hlen
    simp only [Nat.add_sub_cancel]
    have hnlen : n < recs.length := by omega
    obtain ⟨ih1, ih2, ih3, ih4⟩ := ih (by omega)
    have hidx : n - 1 + 1 = n := by omega
    have hLL' : (recs.getD n default).level
        ≤ (recs.getD (n-1) default).level + 1 := by
      have := hstep (n-1) (by omega)
      rwa [hidx] at this
    have hwfk : wellFormedRec (recs.getD n default) :=
      hwf _ (getD_mem _ _ hnlen)
    have hwfk1 : wellFormedRec (recs.getD (n-1) default) :=
      hwf _ (getD_mem _ _ (by omega))
    have hL'1 : 1 ≤ (recs.getD n default).level := hwfk.2.2.1
    have hL1 : 1 ≤ (recs.getD (n-1) default).level := hwfk1.2.2.1
    have hst : stateAt recs (n+1)
        = pureStep (stateAt recs n) (recs.getD n default) :=
      stateAt_succ recs n hnlen
    have hstack' : (stateAt recs (n+1)).parent_stack
        = adjStack (stateAt recs n).parent_stack
            (stateAt recs n).last_predicate
            ((recs.getD n default).level : Int) := by
      rw [hst]; rfl
    have hlast' : (stateAt recs (n+1)).last_predicate
        = some (normPred (recs.getD n default).predicate) := by
      rw [hst]; rfl
    have htake : recs.take (n+1) = recs.take n ++ [recs.getD n default] :=
      take_succ_getD recs n hnlen
    by_cases hpush : (recs.getD (n-1) default).level
        < (recs.getD n default).level
    · -- push case: the level went up by exactly one
      have hLeq : (recs.getD n default).level
          = (recs.getD (n-1) default).level + 1 := by omega
      have hpushlen : (stateAt recs n).parent_stack.length + 1
          < (recs.getD n default).level := by
        rw [ih1]; omega
      have hstack2 : (stateAt recs (n+1)).parent_stack
          = (stateAt recs n).last_predicate
              :: (stateAt recs n).parent_stack := by
        rw [hstack', adjStack_push _ _ _ hpushlen]
      have hlen2 : (stateAt recs (n+1)).parent_stack.length
          = (recs.getD n default).level - 1 := by
        rw [hstack2, List.length_cons, ih1]
        omega
      have htake2 : recs.take n
          = recs.take (n-1) ++ [recs.getD (n-1) default] := by
        have := take_succ_getD recs (n-1) (by omega)
        rwa [hidx] at this
      have hlastL : lastAt (recs.take (n+1))
          ((recs.getD (n-1) default).level)
          = some (recs.getD (n-1) default) := by
        rw [htake, lastAt_append_ne _ _ _ (by omega), htake2,
          lastAt_append_eq _ _ _ rfl]
      refine ⟨hlen2, hlast', ?_, ?_⟩
      · intro j hj
        rw [hlen2] at hj
        rw [hlen2, hstack2]
        cases j with
        | zero =>
          rw [List.getD_cons_zero, Nat.sub_zero, ih2]
          have hd : (recs.getD n default).level - 1
              = (recs.getD (n-1) default).level := by omega
          rw [hd, hlastL]
          rfl
        | succ j' =>
          rw [List.getD_cons_succ]
          have hj' : j' < (stateAt recs n).parent_stack.length := by
            rw [ih1]; omega
          rw [ih3 j' hj', ih1]
          have hd : (recs.getD n default).level - 1 - (j' + 1)
              = (recs.getD (n-1) default).level - 1 - j' := by omega
          rw [hd, htake, lastAt_append_ne _ _ _ (by omega)]
      · intro d hd1 hd2
        by_cases hdL : d = (recs.getD (n-1) default).level
        · rw [hdL, hlastL]
          rfl
        · rw [htake, lastAt_append_ne _ _ _ (by omega)]
          exact ih4 d hd1 (by omega)
    · -- no push: the level stayed or dropped; only pops happen
      have hLle : (recs.getD n default).level
          ≤ (recs.getD (n-1) default).level := by omega
      have hnople : (recs.getD n default).level
          ≤ (stateAt recs n).parent_stack.length + 1 := by
        rw [ih1]; omega
      have hstack2 : (stateAt recs (n+1)).parent_stack
          = (stateAt recs n).parent_stack.drop
              ((stateAt recs n).parent_stack.length
                - ((recs.getD n default).level - 1)) := by
        rw [hstack', adjStack_nopush _ _ _ hnople]
      have hlen2 : (stateAt recs (n+1)).parent_stack.length
          = (recs.getD n default).level - 1 := by
        rw [hstack2, List.length_drop, ih1]
        omega
      refine ⟨hlen2, hlast', ?_, ?_⟩
      · intro j hj
        rw [hlen2] at hj
        rw [hlen2, hstack2, getD_drop]
        have hjm : (stateAt recs n).parent_stack.length
            - ((recs.getD n default).level - 1) + j
            < (stateAt recs n).parent_stack.length := by
          rw [ih1]; omega
        rw [ih3 _ hjm, ih1]
        have hd : (recs.getD (n-1) default).level - 1
            - ((recs.getD (n-1) default).level - 1
                - ((recs.getD n default).level - 1) + j)
            = (recs.getD n default).level - 1 - j := by omega
        rw [hd, htake, lastAt_append_ne _ _ _ (by omega)]
      · intro d hd1 hd2
        rw [htake, lastAt_append_ne _ _ _ (by omega)]
        exact ih4 d hd1 (by omega)

theorem terms_length (recs : List SRec) :
    ∀ k, k ≤ recs.length → (stateAt recs k).terms.length = k := by
  intro k
  induction k with
  | zero => intro _; rfl
  | succ n ih =>
    intro h
    rw [stateAt_succ recs n (by omega)]
    simp only [pureStep, List.length_append, ih (by omega), List.length_cons,
      List.length_nil]

theorem terms_getD (recs : List SRec) :
    ∀ k, k ≤ recs.length → ∀ i, i < k →
      (stateAt recs k).terms.getD i default
        = stepTerm (stateAt recs i) (recs.getD i default) := by
  intro k
  induction k with
  | zero => intro _ i hi; omega
  | succ n ih =>
    intro hk i hi
    rw [stateAt_succ recs n (by omega)]
    show ((stateAt recs n).terms
      ++ [stepTerm (stateAt recs n) (recs.getD n default)]).getD i default = _
    by_cases hin : i < n
    · rw [getD_append_left _ _ _ _
        (by rw [terms_length recs n (by omega)]; omega)]
      exact ih (by omega) i hin
    · have hieq : i = n := by omega
      subst hieq
      have hlen : (stateAt recs i).terms.length = i :=
        terms_length recs i (by omega)
      have happ := getD_append_length (stateAt recs i).terms
        (stepTerm (stateAt recs i) (recs.getD i default)) default
      rw [hlen] at happ
      exact happ

theorem stackParent_eq_getD (s : List (Option String)) :
    stackParent s = s.getD 0 none := by
  cases s <;> rfl

/-- The parent stored in the `i`-th emitted term is the top of the stack as
it stands right after processing record `i`. -/
theorem term_parent_eq (recs : List SRec) (i : Nat) (hi : i < recs.length) :
    (stepTerm (stateAt recs i) (recs.getD i default)).parent
      = stackParent ((stateAt recs (i+1)).parent_stack) := by
  rw [stateAt_succ recs i hi]
  rfl

theorem last_predicate_at (recs : List SRec) (i : Nat) (h0 : 1 ≤ i)
    (hi : i ≤ recs.length) :
    (stateAt recs i).last_predicate
      = some (normPred (recs.getD (i-1) default).predicate) := by
  have hidx : i - 1 + 1 = i := by omega
  have h1 : i - 1 < recs.length := by omega
  have hs := stateAt_succ recs (i-1) h1
  rw [hidx] at hs
  rw [hs]
  rfl

/-- C1: for every terms-file input whose records have levels starting at 1
and increasing by at most one per step, `parse_terms` assigns to each
level-N record (N > 1) a parent equal to the normalized predicate
("#"-prefixed when not URI-shaped) of the most recently emitted record at
level N-1, and assigns no parent to each level-1 record. -/
theorem C1_hierarchy_parent (recs : List SRec)
    (hwf : ∀ r ∈ recs, wellFormedRec r)
    (hfirst : 0 < recs.length → (recs.getD 0 default).level = 1)
    (hstep : ∀ i, i + 1 < recs.length →
      (recs.getD (i+1) default).level ≤ (recs.getD i default).level + 1) :
    ∃ ts, parse_terms (recs.map toRow) = .ok ts ∧ ts.length = recs.length ∧
      ∀ i, i < recs.length →
        ((recs.getD i default).level = 1 → (ts.getD i default).parent = none)
        ∧ (2 ≤ (recs.getD i default).level →
            ∃ r', lastAt (recs.take i) ((recs.getD i default).level - 1)
                = some r'
              ∧ (ts.getD i default).parent = some (normPred r'.predicate)) := by
  refine ⟨(stateAt recs recs.length).terms, parse_terms_map_toRow recs hwf,
    terms_length recs recs.length (le_refl _), ?_⟩
  intro i hi
  have hterm : (stateAt recs recs.length).terms.getD i default
      = stepTerm (stateAt recs i) (recs.getD i default) :=
    terms_getD recs recs.length (le_refl _) i hi
  obtain ⟨inv1, inv2, inv3, inv4⟩ :=
    stack_invariant recs hwf hfirst hstep (i+1) (by omega) (by omega)
  simp only [Nat.add_sub_cancel] at inv1 inv2 inv3 inv4
  have hpar : (stepTerm (stateAt recs i) (recs.getD i default)).parent
      = stackParent ((stateAt recs (i+1)).parent_stack) :=
    term_parent_eq recs i hi
  have htake : recs.take (i+1) = recs.take i ++ [recs.getD i default] :=
    take_succ_getD recs i hi
  constructor
  · intro hL1
    rw [hterm, hpar, stackParent_eq_getD]
    have hempty : (stateAt recs (i+1)).parent_stack = [] := by
      have : (stateAt recs (i+1)).parent_stack.length = 0 := by
        rw [inv1, hL1]
      exact List.length_eq_zero.mp this
    rw [hempty]
    rfl
  · intro hL2
    have hlen1 : 0 < (stateAt recs (i+1)).parent_stack.length := by
      rw [inv1]; omega
    have hsome : (lastAt (recs.take (i+1))
        ((recs.getD i default).level - 1)).isSome = true :=
      inv4 _ (by omega) (by omega)
    have hstab : lastAt (recs.take (i+1)) ((recs.getD i default).level - 1)
        = lastAt (recs.take i) ((recs.getD i default).level - 1) := by
      rw [htake, lastAt_append_ne _ _ _ (by omega)]
    rw [hstab] at hsome
    obtain ⟨r', hr'⟩ := Option.isSome_iff_exists.mp hsome
    refine ⟨r', hr', ?_⟩
    rw [hterm, hpar, stackParent_eq_getD]
    have := inv3 0 hlen1
    rw [Nat.sub_zero, inv1] at this
    rw [this, hstab, hr']
    rfl

/-- The spec's worked example: rows foo;1, bar;2, baz;1. -/
def exampleRecs : List SRec :=
  [⟨"foo", "1", 1, "Foo", "A foo term", none⟩,
    ⟨"bar", "2", 2, "Bar", "A bar term", none⟩,
    ⟨"baz", "1", 1, "Baz", "A baz term", none⟩]

/-- Witness for C1: on the example rows, "bar"'s parent is "#foo" and
"baz" has no parent. -/
theorem C1_hierarchy_parent_witness :
    (∃ ts, parse_terms (exampleRecs.map toRow) = .ok ts
        ∧ ts.length = exampleRecs.length
        ∧ ∀ i, i < exampleRecs.length →
            ((exampleRecs.getD i default).level = 1 →
              (ts.getD i default).parent = none)
            ∧ (2 ≤ (exampleRecs.getD i default).level →
                ∃ r', lastAt (exampleRecs.take i)
                    ((exampleRecs.getD i default).level - 1) = some r'
                  ∧ (ts.getD i default).parent
                      = some (normPred r'.predicate)))
    ∧ parse_terms (exampleRecs.map toRow)
        = .ok [⟨"foo", "Foo", "A foo term", none, none⟩,
            ⟨"bar", "Bar", "A bar term", some "#foo", none⟩,
            ⟨"baz", "Baz", "A baz term", none, none⟩] :=
  ⟨C1_hierarchy_parent exampleRecs (by decide)
      (by intro h; rfl)
      (by
        intro i hi
        have h2 : i < 2 := by
          simp only [exampleRecs, List.length_cons, List.length_nil] at hi
          omega
        interval_cases i <;> decide),
    by rfl⟩

/-- C7: for every record whose level exceeds the current stack depth plus
one (a jump of any size), `parse_terms` pushes exactly one entry — the
previous record's normalized predicate — onto the ancestor stack, and that
entry becomes the record's parent. -/
theorem C7_level_jump (recs : List SRec)
    (hwf : ∀ r ∈ recs, wellFormedRec r)
    (i : Nat) (h0 : 1 ≤ i) (hi : i < recs.length)
    (hjump : (stateAt recs i).parent_stack.length + 1
        < (recs.getD i default).level) :
    (stateAt recs (i+1)).parent_stack
        = (stateAt recs i).last_predicate :: (stateAt recs i).parent_stack
    ∧ (stateAt recs i).last_predicate
        = some (normPred (recs.getD (i-1) default).predicate)
    ∧ ∃ ts, parse_terms (recs.map toRow) = .ok ts
        ∧ (ts.getD i default).parent
            = some (normPred (recs.getD (i-1) default).predicate) := by
  have hlp := last_predicate_at recs i h0 (by omega)
  have hstack : (stateAt recs (i+1)).parent_stack
      = (stateAt recs i).last_predicate :: (stateAt recs i).parent_stack := by
    rw [stateAt_succ recs i hi]
    show adjStack (stateAt recs i).parent_stack
      (stateAt recs i).last_predicate ((recs.getD i default).level : Int) = _
    exact adjStack_push _ _ _ hjump
  refine ⟨hstack, hlp, (stateAt recs recs.length).terms,
    parse_terms_map_toRow recs hwf, ?_⟩
  rw [terms_getD recs recs.length (le_refl _) i hi,
    term_parent_eq recs i hi, hstack]
  exact hlp

/-- Two records where the level jumps from 1 straight to 3. -/
def jumpRecs : List SRec :=
  [⟨"foo", "1", 1, "Foo", "D1", none⟩,
    ⟨"bar", "3", 3, "Bar", "D2", none⟩]

/-- Witness for C7 at a jump of two levels in one step. -/
theorem C7_level_jump_witness :
    (stateAt jumpRecs 2).parent_stack
        = (stateAt jumpRecs 1).last_predicate
            :: (stateAt jumpRecs 1).parent_stack
    ∧ (stateAt jumpRecs 1).last_predicate
        = some (normPred (jumpRecs.getD 0 default).predicate)
    ∧ ∃ ts, parse_terms (jumpRecs.map toRow) = .ok ts
        ∧ (ts.getD 1 default).parent
            = some (normPred (jumpRecs.getD 0 default).predicate) :=
  C7_level_jump jumpRecs (by decide) 1 (by decide) (by decide) (by decide)

/-- C2 counterexample: for the row foo;1;L;D the raw predicate "foo" is not
URI-shaped, yet the Term appended by `parse_terms` stores the raw "foo" in
its predicate field, not the "#"-prefixed normalization. -/
theorem C2_raw_predicate_counterexample :
    parse_terms [["foo", "1", "L", "D"]]
        = .ok [⟨"foo", "L", "D", none, none⟩]
    ∧ is_URI "foo" = false
    ∧ ("foo" : String) ≠ "#foo" :=
  ⟨by rfl, by rfl, by decide⟩

/-- C2 (amended): for every record, `parse_terms` computes the normalized
predicate ("#"-prefixed when not URI-shaped) only into `last_predicate`,
the value used for parent links; the Term's predicate field receives the
raw predicate unchanged, and a present synonym is stored normalized. -/
theorem C2_predicate_normalization (st : PState) (r : SRec)
    (h : wellFormedRec r) :
    processRec st (toRow r) = .ok (pureStep st r)
    ∧ (pureStep st r).terms = st.terms ++ [stepTerm st r]
    ∧ (stepTerm st r).predicate = r.predicate
    ∧ (pureStep st r).last_predicate
        = some (if is_URI r.predicate then r.predicate
            else "#" ++ r.predicate)
    ∧ (stepTerm st r).synonym
        = r.synonym.map (fun s => if is_URI s then s else "#" ++ s) := by
  exact ⟨processRec_toRow st r h, rfl, rfl, rfl, rfl⟩

/-- Witness for the amended C2 on a concrete record with a synonym. -/
theorem C2_predicate_normalization_witness :
    processRec initState (toRow ⟨"foo", "1", 1, "L", "D", some "syn"⟩)
        = .ok (pureStep initState ⟨"foo", "1", 1, "L", "D", some "syn"⟩)
    ∧ (pureStep initState ⟨"foo", "1", 1, "L", "D", some "syn"⟩).terms
        = initState.terms
            ++ [stepTerm initState ⟨"foo", "1", 1, "L", "D", some "syn"⟩]
    ∧ (stepTerm initState ⟨"foo", "1", 1, "L", "D", some "syn"⟩).predicate
        = "foo"
    ∧ (pureStep initState
          ⟨"foo", "1", 1, "L", "D", some "syn"⟩).last_predicate
        = some (if is_URI "foo" then "foo" else "#" ++ "foo")
    ∧ (stepTerm initState ⟨"foo", "1", 1, "L", "D", some "syn"⟩).synonym
        = (some "syn").map (fun s => if is_URI s then s else "#" ++ s) :=
  C2_predicate_normalization initState ⟨"foo", "1", 1, "L", "D", some "syn"⟩
    (by decide)

theorem runRecs_append (st : PState) (l1 l2 : List (List String)) :
    runRecs st (l1 ++ l2)
      = match runRecs st l1 with
        | .error e => .error e
        | .ok st' => runRecs st' l2 := by
  induction l1 generalizing st with
  | nil => rfl
  | cons r rest ih =>
    simp only [List.cons_append, runRecs]
    cases h : processRec st r with
    | error e => rfl
    | ok st' => exact ih st'

/-- On a five-field record whose synonym field is empty, the loop body maps
the field to `None` and then calls `is_URI(None)`, a `TypeError`
(source lines 507 and 526-527). -/
theorem processRec_empty_synonym (st : PState) (row : List String)
    (h5 : row.length = 5)
    (hsyn : row.getD 4 "x" = "")
    (hpred : row.getD 0 "" ≠ "")
    (hlvl : ∃ n : Int, strToInt (row.getD 1 "") = some n ∧ 1 ≤ n) :
    processRec st row = .error .typeError := by
  rcases row with _ | ⟨a, row⟩
  · simp at h5
  rcases row with _ | ⟨b, row⟩
  · simp at h5
  rcases row with _ | ⟨c, row⟩
  · simp at h5
  rcases row with _ | ⟨d, row⟩
  · simp at h5
  rcases row with _ | ⟨e, row⟩
  · simp at h5
  rcases row with _ | ⟨f, row⟩
  swap
  · simp at h5
  obtain ⟨n, hn, hn1⟩ := hlvl
  simp only [List.getD_cons_succ, List.getD_cons_zero] at hsyn hpred hn
  subst hsyn
  have hb : b ≠ "" := by
    intro he
    rw [he] at hn
    simp [strToInt, digitsToNat] at hn
  have hng : ¬ (n - 1 < 0) := by omega
  simp [processRec, pyOrNone, getItem, pyInt, reMatchArg, hpred, hb, hn,
    popTo, hng]

/-- A record whose level field denotes a non-positive integer crashes in
the pop loop itself — `parent_stack.pop()` on the exhausted stack — before
any later field is touched. -/
theorem processRec_nonpositive_level (st : PState) :
    processRec st ["foo", "0", "L", "D", ""] = .error .indexError := rfl

/-- C8: for every input whose `i`-th record has exactly five fields with an
empty fifth (synonym) field — the earlier records parsing fine, the record's
predicate non-empty and its level field denoting a positive integer, so that
the loop body reaches the synonym handling — the whole parse raises an
unhandled, non-reportable `TypeError`: the empty field is mapped to `None`
and the URI test is applied to `None`.  (A non-positive level would instead
raise `IndexError` earlier, at the pop loop.) -/
theorem C8_empty_synonym_crash (rows : List (List String)) (i : Nat)
    (hi : i < rows.length)
    (hpre : ∃ st, runRecs initState (rows.take i) = .ok st)
    (h5 : (rows.getD i []).length = 5)
    (hsyn : (rows.getD i []).getD 4 "x" = "")
    (hpred : (rows.getD i []).getD 0 "" ≠ "")
    (hlvl : ∃ n : Int, strToInt ((rows.getD i []).getD 1 "") = some n ∧ 1 ≤ n) :
    parse_terms rows = .error .typeError := by
  obtain ⟨st, hst⟩ := hpre
  have hget : rows.getD i [] = rows[i] := by
    rw [List.getD_eq_getElem?_getD, List.getElem?_eq_getElem hi]
    rfl
  have hsplit : rows = rows.take i ++ (rows.getD i [] :: rows.drop (i+1)) := by
    conv_lhs => rw [← List.take_append_drop i rows]
    rw [List.drop_eq_getElem_cons hi, hget]
  have hrun : runRecs initState rows = .error .typeError := by
    rw [hsplit, runRecs_append, hst]
    show (match processRec st (rows.getD i []) with
      | Except.error e => (Except.error e : Except PyErr PState)
      | Except.ok st' => runRecs st' (rows.drop (i+1))) = _
    rw [processRec_empty_synonym st _ h5 hsyn hpred hlvl]
  unfold parse_terms
  rw [hrun]

/-- Witness for C8: the single row foo;1;L;D; with an empty synonym field. -/
theorem C8_empty_synonym_crash_witness :
    (∃ st, runRecs initState ([["foo", "1", "L", "D", ""]].take 0) = .ok st)
    ∧ parse_terms [["foo", "1", "L", "D", ""]] = .error .typeError :=
  ⟨⟨initState, rfl⟩,
    C8_empty_synonym_crash [["foo", "1", "L", "D", ""]] 0 (by decide)
      ⟨initState, rfl⟩ (by rfl) (by rfl) (by decide) ⟨1, by rfl, by decide⟩⟩

/-- C3: `make_ttl_literal` returns the angle-bracket reference exactly when
the string begins with one or more ASCII letters followed by "://" or
begins with "#"; otherwise a newline-containing string is wrapped in triple
double-quotes with no escaping, and a newline-free string is wrapped in
single double-quotes with every embedded double quote escaped as
backslash-quote. -/
theorem C3_ttl_literal_classification (s : String) :
    (make_ttl_literal s = "<" ++ s ++ ">" ↔ UriShaped s)
    ∧ (¬ UriShaped s → s.data.contains '\n' = true →
        make_ttl_literal s = "\"\"\"" ++ s ++ "\"\"\"")
    ∧ (¬ UriShaped s → s.data.contains '\n' = false →
        make_ttl_literal s = "\"" ++ escape_dquotes s ++ "\"") := by
  refine ⟨make_ttl_literal_uri_char s, ?_, ?_⟩
  · intro hn hnl
    unfold make_ttl_literal
    rw [(is_URI_eq_false_iff s).2 hn, hnl]
    rfl
  · intro hn hnl
    unfold make_ttl_literal
    rw [(is_URI_eq_false_iff s).2 hn, hnl]
    rfl

/-- Witness for C3 on the three branches: a fragment reference, a
multi-line description, and a quoted one-line description. -/
theorem C3_ttl_literal_classification_witness :
    make_ttl_literal "#foo" = "<" ++ "#foo" ++ ">"
    ∧ make_ttl_literal "a\nb" = "\"\"\"" ++ "a\nb" ++ "\"\"\""
    ∧ make_ttl_literal "a\"b" = "\"" ++ escape_dquotes "a\"b" ++ "\"" :=
  ⟨(C3_ttl_literal_classification "#foo").1.mpr (Or.inr rfl),
    (C3_ttl_literal_classification "a\nb").2.1
      ((is_URI_eq_false_iff "a\nb").mp (by decide)) (by decide),
    (C3_ttl_literal_classification "a\"b").2.2
      ((is_URI_eq_false_iff "a\"b").mp (by decide)) (by decide)⟩

/-! ## Vocabulary metadata and the document emitters -/

/-- One section of the ini-style configuration: its name and its
key/value items. -/
structure Sect where
  name : String
  items : List (String × String)
deriving Repr, DecidableEq

/-- The vocabulary dictionary built by `_make_vocab_meta` (source 339-364):
the section's items plus the derived "name" and "terms_fname" entries. -/
structure VocabDef where
  name : String
  terms_fname : String
  items : List (String × String)
deriving Repr, DecidableEq

/-- `vocab_def[k]` for a configuration key. -/
def VocabDef.getKey (vd : VocabDef) (k : String) : String :=
  ((vd.items.lookup k).getD "")

/-- The creators rendering of `write_ontology` (source lines 410-412). -/
def ttl_creators (authors : String) : String :=
  String.intercalate ",\n    " ((authors.splitOn ";").map
    (fun n => "[ foaf:name " ++ make_ttl_literal n.trim ++ " ]"))

/-- `TTL_HEADER_TEMPLATE` (source lines 82-103) filled as in
`write_ontology` (source lines 408-413): each metadata value is rendered
with `make_ttl_literal`, creators as above. -/
def ttl_header (vd : VocabDef) : String :=
  "@base " ++ make_ttl_literal (vd.getKey "baseuri") ++ ".\n"
    ++ "@prefix : <#>.\n\n"
    ++ "@prefix dc: <http://purl.org/dc/terms/> .\n"
    ++ "@prefix rdfs: <http://www.w3.org/2000/01/rdf-schema#> .\n"
    ++ "@prefix owl: <http://www.w3.org/2002/07/owl#> .\n"
    ++ "@prefix xsd: <http://www.w3.org/2001/XMLSchema#> .\n"
    ++ "@prefix rdf: <http://www.w3.org/1999/02/22-rdf-syntax-ns#> .\n"
    ++ "@prefix foaf: <http://xmlns.com/foaf/0.1/>.\n\n"
    ++ "<> a owl:Ontology;\n"
    ++ "\tdc:created " ++ make_ttl_literal (vd.getKey "timestamp") ++ ";\n"
    ++ "\tdc:creator " ++ ttl_creators (vd.getKey "authors") ++ ";\n"
    ++ "\trdfs:label " ++ make_ttl_literal (vd.getKey "title") ++ "@en;\n"
    ++ "\tdc:title " ++ make_ttl_literal (vd.getKey "title") ++ "@en;\n"
    ++ "\tdc:description " ++ make_ttl_literal (vd.getKey "description")
    ++ ".\n\n"
    ++ "dc:created a owl:AnnotationProperty.\n"
    ++ "dc:creator a owl:AnnotationProperty.\n"
    ++ "dc:title a owl:AnnotationProperty.\n"
    ++ "dc:description a owl:AnnotationProperty.\n"

/-- The sequence of `f.write` calls of `write_ontology` (source 402-419):
the filled header, then for each term its turtle rendering and a blank
line.  The trailing `add_rdf_file` subprocess call is outside this model. -/
def write_ontology_writes (vd : VocabDef) (terms : List Term) : List String :=
  terms.foldl (fun acc t => acc ++ [Term.as_ttl t, "\n\n"]) [ttl_header vd]

/-- `CSS_STYLE` (source lines 106-162). -/
def CSS_STYLE : String :=
  "\nhtml \x7b\n\tfont-family: sans;\n\x7d\n\n"
    ++ "h1 \x7b\n\tmargin-bottom: 3ex;\n\tborder-bottom: 2pt solid #ccc;\n\x7d\n\n"
    ++ "tr \x7b\n\tpadding-top: 2pt;\n\tpadding-bottom: 2pt;\n\tborder-bottom: 1pt solid #ccc;\n\x7d\n\n"
    ++ "thead tr \x7b\n\tborder-top: 1pt solid black;\n\tborder-bottom: 1pt solid black;\n\x7d\n\n"
    ++ "th \x7b\n\tpadding: 4pt;\n\x7d\n\n"
    ++ ".intro \x7b\n\tmax-width: 30em;\n\tmargin-bottom: 5ex;\n\tmargin-left: 2ex;\n\x7d\n\n"
    ++ ".outro \x7b\n\tmax-width: 30em;\n\tmargin-top: 4ex;\n\x7d\n\n"
    ++ "table \x7b\n\tborder-collapse: collapse;\n\tborder-bottom: 1pt solid black;\n\x7d\n\n"
    ++ "td \x7b\n\tvertical-align: top;\n\tpadding: 2pt;\n\x7d\n\n"
    ++ "th:nth-child(1),\ntd:nth-child(1) \x7b\n  background: #eef;\n\x7d\n\n"
    ++ "th:nth-child(3),\ntd:nth-child(3) \x7b\n  background: #eef;\n  max-width: 20em;\n\x7d\n"

/-- The document tree built by `write_html` (source lines 422-471); the
final `doc.dump(dest_file=f)` serializes exactly this tree. -/
def write_html_doc (vd : VocabDef) (terms : List Term) : HNode :=
  let term_table : HNode :=
    .el "table" [("class", "terms")] [
      .el "thead" [] [
        .el "tr" [] [
          .el "th" [("title",
            "The formal name of the predicate as used in URIs")]
            [.txt "Predicate"],
          .el "th" [("title",
            "Suggested label for the predicate in human-facing UIs")]
            [.txt "Label"],
          .el "th" [("title",
            "Human-readable description of the predicate")]
            [.txt "Description"],
          .el "th" [("title",
            "If the predicate is in a wider-narrower relationship to other"
              ++ " predicates: The more general term.")]
            [.txt "Parent"],
          .el "th" [("title",
            "If the predicate has been superseded by another term but is"
              ++ " otherwise synonymous with it: The term that should now be"
              ++ " preferentially used")]
            [.txt "Preferred"]]],
      .el "tbody" [] (terms.map Term.as_html)]
  .el "html" [("xmlns", "http://www.w3.org/1999/xhtml")] [
    .el "head" [] [
      .el "title" [] [.txt ("IVOA Vocabulary: " ++ vd.getKey "title")],
      .el "meta" [("http-equiv", "content-type"),
        ("content", "text/html;charset=utf-8")] [],
      .el "style" [("type", "text/css")] [.txt CSS_STYLE]],
    .el "body" [] [
      .el "h1" [] [.txt ("IVOA Vocabulary: " ++ vd.getKey "title")],
      .el "div" [("class", "intro")] [
        .el "p" [] [
          .txt "This is the description of the namespace ",
          .el "code" [] [.txt (vd.getKey "baseuri")],
          .txt (" as of " ++ vd.getKey "timestamp" ++ ".")],
        .el "p" [("class", "description")]
          [.txt (vd.getKey "description")]],
      term_table,
      .el "p" [("class", "outro")] [
        .txt "Alternate formats: ",
        .el "a" [("href", vd.name ++ ".rdf")] [.txt "RDF"],
        .txt ", ",
        .el "a" [("href", vd.name ++ ".ttl")] [.txt "Turtle"],
        .txt "."]]]

/-- C4: the ontology emitter writes exactly one serialized declaration per
term and the HTML emitter puts exactly one table body row per term, each
in input order. -/
theorem C4_one_output_per_term (vd : VocabDef) (terms : List Term) :
    write_ontology_writes vd terms
        = ttl_header vd :: terms.flatMap (fun t => [Term.as_ttl t, "\n\n"])
    ∧ (((write_html_doc vd terms).childAt 1).childAt 2).childAt 1
        = HNode.el "tbody" [] (terms.map Term.as_html) := by
  constructor
  · have key : ∀ (ts : List Term) (acc : List String),
        ts.foldl (fun a t => a ++ [Term.as_ttl t, "\n\n"]) acc
          = acc ++ ts.flatMap (fun t => [Term.as_ttl t, "\n\n"]) := by
      intro ts
      induction ts with
      | nil => intro acc; simp
      | cons t rest ih =>
        intro acc
        simp [List.foldl_cons, ih, List.append_assoc]
    unfold write_ontology_writes
    rw [key]
    rfl
  · rfl

/-! ## Metadata loading, the build pipeline, and the command line -/

/-- `MANDATORY_KEYS` (source lines 54-55).  The source holds them in a
`frozenset`; the list order here is the source's listing order (Python set
iteration order is unspecified, so the reported key order is as well). -/
def MANDATORY_KEYS : List String :=
  ["baseuri", "timestamp", "title", "description", "authors"]

/-- The `ReportableError` values the script raises, one constructor per
raise site; `RError.message` reproduces the formatted message strings. -/
inductive RError where
  | vocabIncomplete : String → List String → RError
  | termsUnreadable : String → RError
  | configUnreadable : String → RError
  | rdfConversionFailed : RError
  | nonOfficialRoot : RError
deriving Repr, DecidableEq

/-- The message each `ReportableError` is raised with (source lines
350-351, 360-362, 376-377, 399, 593-594).  Note the terms-file message
(line 361) formats `terms_fname`, which already ends in ".terms", into a
template that appends ".terms" again. -/
def RError.message : RError → String
  | .vocabIncomplete n ks =>
      "Vocabulary definition for " ++ n ++ " incomplete: "
        ++ String.intercalate ", " ks ++ " missing."
  | .termsUnreadable f =>
      "Expected terms file " ++ f ++ ".terms cannot be read."
  | .configUnreadable f =>
      "Cannot open or read vocabulary configuration " ++ f
  | .rdfConversionFailed =>
      "Conversion to RDF+XML failed; see output above."
  | .nonOfficialRoot =>
      "Non-official install_roots not currently supported, sorry."

/-- The readable term-source files of the working directory, with their
decoded CSV rows. -/
structure FileSys where
  termsRows : List (String × List (List String))
deriving Repr

/-- Whether `open(f)` succeeds. -/
def FileSys.readable (fs : FileSys) (f : String) : Bool :=
  (fs.termsRows.map Prod.fst).contains f

/-- `MANDATORY_KEYS - set(vocab_def)` (source line 348). -/
def missingOf (sec : Sect) : List String :=
  MANDATORY_KEYS.filter (fun k => decide (k ∉ sec.items.map Prod.fst))

/-- `_make_vocab_meta` (source lines 339-364): mandatory-key check first,
then the readability probe of the derived `<section>.terms` file. -/
def _make_vocab_meta (fs : FileSys) (sec : Sect) : Except RError VocabDef :=
  if missingOf sec ≠ [] then
    .error (.vocabIncomplete sec.name (missingOf sec))
  else
    if fs.readable (sec.name ++ ".terms") then
      .ok ⟨sec.name, sec.name ++ ".terms", sec.items⟩
    else .error (.termsUnreadable (sec.name ++ ".terms"))

/-- The per-section loop of `read_meta` (source lines 379-382); the
initial `ConfigParser` read is abstracted into the given section list. -/
def read_meta (fs : FileSys) : List Sect → Except RError (List VocabDef)
  | [] => .ok []
  | sec :: rest =>
    match _make_vocab_meta fs sec with
    | .error e => .error e
    | .ok vd =>
      match read_meta fs rest with
      | .error e => .error e
      | .ok vds => .ok (vd :: vds)

/-- Either kind of failure the program can report: a `ReportableError`
or an escaping Python exception. -/
inductive ProgErr where
  | rep : RError → ProgErr
  | py : PyErr → ProgErr
deriving Repr, DecidableEq

/-- The paths `build_vocab` (source lines 537-562) writes through its
emitters inside the two `work_dir` blocks, the rapper-produced .rdf
sibling included (the converter is modelled as succeeding; its failure
path is outside the claims).  A parse failure propagates
(source lines 548-553). -/
def build_vocab (fs : FileSys) (vd : VocabDef) :
    Except ProgErr (List String) :=
  match parse_terms ((fs.termsRows.lookup vd.terms_fname).getD []) with
  | .error e => .error (.py e)
  | .ok _ =>
    let dest := vd.name ++ "/" ++ vd.getKey "timestamp"
    .ok [dest ++ "/" ++ vd.name ++ ".ttl",
      dest ++ "/" ++ vd.name ++ ".rdf",
      dest ++ "/" ++ vd.name ++ ".html",
      vd.name ++ "/.htaccess",
      vd.name ++ "/META.INF"]

/-- The `for vocab_def in meta` loop of `main` (source lines 597-598):
builds in order, stopping at the first failure, keeping earlier writes. -/
def buildAll (fs : FileSys) : List VocabDef → List String
    → (Option ProgErr) × List String
  | [], acc => (none, acc)
  | vd :: rest, acc =>
    match build_vocab fs vd with
    | .error e => (some e, acc)
    | .ok ws => buildAll fs rest (acc ++ ws)

def OFFICIAL_INSTALL_ROOT : String := "http://www.ivoa.net/std/rdf/"

/-- The trailing-slash normalization of `parse_command_line`
(source lines 582-583); endswith on a one-character suffix is the
last-character test. -/
def normalize_install_root (s : String) : String :=
  if s.data.getLast? = some '/' then s else s ++ "/"

/-- `main` (source lines 588-598) after command-line parsing: the
install-root guard, then metadata loading, then the per-vocabulary
builds.  The pair holds (first error if any, files written before it). -/
def mainModel (install_root : String) (sections : List Sect)
    (fs : FileSys) : (Option ProgErr) × List String :=
  if install_root ≠ OFFICIAL_INSTALL_ROOT then
    (some (.rep .nonOfficialRoot), [])
  else
    match read_meta fs sections with
    | .error e => (some (.rep e), [])
    | .ok meta => buildAll fs meta []

/-- Interpreter traceback for an uncaught exception (only its existence
matters here, not its text). -/
def pyTracebackText (e : PyErr) : String :=
  "Traceback (most recent call last): " ++ toString (repr e)

structure RunResult where
  exitCode : Nat
  stderrText : String
  writes : List String
deriving Repr, DecidableEq

/-- The `if __name__ == "__main__"` harness (source lines 601-606): a
`ReportableError` becomes one "*** Fatal:" line on stderr and exit status
1; any other exception escapes as a traceback. -/
def runProgram (install_root_arg : String) (sections : List Sect)
    (fs : FileSys) : RunResult :=
  match mainModel (normalize_install_root install_root_arg) sections fs with
  | (none, ws) => ⟨0, "", ws⟩
  | (some (.rep e), ws) => ⟨1, "*** Fatal: " ++ e.message ++ "\n", ws⟩
  | (some (.py e), ws) => ⟨1, pyTracebackText e, ws⟩

theorem read_meta_error_of_mem (fs : FileSys) (sections : List Sect)
    (sec : Sect) (hmem : sec ∈ sections) (e0 : RError)
    (herr : _make_vocab_meta fs sec = .error e0) :
    ∃ e, read_meta fs sections = .error e := by
  induction sections with
  | nil => cases hmem
  | cons s rest ih =>
    cases hmem with
    | head =>
      refine ⟨e0, ?_⟩
      simp only [read_meta]
      rw [herr]
    | tail _ hmem' =>
      obtain ⟨e, he⟩ := ih hmem'
      cases hs : _make_vocab_meta fs s with
      | error e' =>
        refine ⟨e', ?_⟩
        simp only [read_meta]
        rw [hs]
      | ok vd =>
        refine ⟨e, ?_⟩
        simp only [read_meta]
        rw [hs, he]

/-- C5: for every configuration section missing at least one mandatory
key, metadata loading raises a reportable error whose message names the
section and exactly the missing keys, and the run creates no output
files (the build loop is never reached). -/
theorem C5_missing_keys (sections : List Sect) (fs : FileSys) (sec : Sect)
    (hmem : sec ∈ sections)
    (hmiss : missingOf sec ≠ []) :
    _make_vocab_meta fs sec
        = .error (.vocabIncomplete sec.name (missingOf sec))
    ∧ (∀ k, k ∈ missingOf sec
        ↔ (k ∈ MANDATORY_KEYS ∧ k ∉ sec.items.map Prod.fst))
    ∧ (RError.vocabIncomplete sec.name (missingOf sec)).message
        = "Vocabulary definition for " ++ sec.name ++ " incomplete: "
          ++ String.intercalate ", " (missingOf sec) ++ " missing."
    ∧ (∃ e, read_meta fs sections = .error e)
    ∧ (∀ root, (runProgram root sections fs).writes = []) := by
  have h1 : _make_vocab_meta fs sec
      = .error (.vocabIncomplete sec.name (missingOf sec)) := by
    unfold _make_vocab_meta
    rw [if_pos hmiss]
  have h4 : ∃ e, read_meta fs sections = .error e :=
    read_meta_error_of_mem fs sections sec hmem _ h1
  refine ⟨h1, ?_, rfl, h4, ?_⟩
  · intro k
    simp [missingOf, List.mem_filter]
  · intro root
    unfold runProgram mainModel
    by_cases hroot : normalize_install_root root ≠ OFFICIAL_INSTALL_ROOT
    · rw [if_pos hroot]
    · rw [if_neg hroot]
      obtain ⟨e, he⟩ := h4
      rw [he]

/-- A section with only two of the five mandatory keys. -/
def C5sec : Sect :=
  ⟨"ex", [("baseuri", "http://example.org/ex"), ("timestamp", "2020-01-01")]⟩

/-- Witness for C5: `C5sec` is missing title, description and authors. -/
theorem C5_missing_keys_witness :
    _make_vocab_meta ⟨[]⟩ C5sec
        = .error (.vocabIncomplete C5sec.name (missingOf C5sec))
    ∧ (∀ k, k ∈ missingOf C5sec
        ↔ (k ∈ MANDATORY_KEYS ∧ k ∉ C5sec.items.map Prod.fst))
    ∧ (RError.vocabIncomplete C5sec.name (missingOf C5sec)).message
        = "Vocabulary definition for " ++ C5sec.name ++ " incomplete: "
          ++ String.intercalate ", " (missingOf C5sec) ++ " missing."
    ∧ (∃ e, read_meta ⟨[]⟩ [C5sec] = .error e)
    ∧ (∀ root, (runProgram root [C5sec] ⟨[]⟩).writes = []) :=
  C5_missing_keys [C5sec] ⟨[]⟩ C5sec (by decide) (by decide)

/-- C6: for every section whose `<section>.terms` file cannot be read,
metadata loading fails with a reportable error distinct from the
missing-keys error, and its message contains the filename
`<section>.terms`. -/
theorem C6_unreadable_terms (fs : FileSys) (sec : Sect)
    (hnomiss : missingOf sec = [])
    (hunread : fs.readable (sec.name ++ ".terms") = false) :
    _make_vocab_meta fs sec
        = .error (.termsUnreadable (sec.name ++ ".terms"))
    ∧ (∀ n ks, RError.termsUnreadable (sec.name ++ ".terms")
        ≠ RError.vocabIncomplete n ks)
    ∧ (∃ pre post, (RError.termsUnreadable (sec.name ++ ".terms")).message
        = pre ++ (sec.name ++ ".terms") ++ post) := by
  refine ⟨?_, ?_, "Expected terms file ", ".terms cannot be read.", rfl⟩
  · unfold _make_vocab_meta
    rw [if_neg (by simp [hnomiss]), hunread]
    rfl
  · intro n ks h
    exact RError.noConfusion h

/-- A complete section whose terms file is absent. -/
def C6sec : Sect :=
  ⟨"ex", [("baseuri", "http://example.org/ex"), ("timestamp", "2020-01-01"),
    ("title", "Ex"), ("description", "Example vocab"),
    ("authors", "A. One; B. Two")]⟩

/-- Witness for C6 with an empty filesystem. -/
theorem C6_unreadable_terms_witness :
    _make_vocab_meta ⟨[]⟩ C6sec
        = .error (.termsUnreadable (C6sec.name ++ ".terms"))
    ∧ (∀ n ks, RError.termsUnreadable (C6sec.name ++ ".terms")
        ≠ RError.vocabIncomplete n ks)
    ∧ (∃ pre post, (RError.termsUnreadable (C6sec.name ++ ".terms")).message
        = pre ++ (C6sec.name ++ ".terms") ++ post) :=
  C6_unreadable_terms ⟨[]⟩ C6sec (by decide) (by decide)

/-- C9: any --install-root value whose slash-normalized form differs from
the official root makes the program exit with status 1 and a single
stderr line prefixed "*** Fatal:", before reading the configuration —
the result is the same for every configuration and filesystem, and no
files are written. -/
theorem C9_non_official_root (arg : String)
    (h : normalize_install_root arg ≠ OFFICIAL_INSTALL_ROOT) :
    ∀ sections fs, runProgram arg sections fs
      = ⟨1, "*** Fatal: "
          ++ "Non-official install_roots not currently supported, sorry."
          ++ "\n", []⟩ := by
  intro sections fs
  unfold runProgram mainModel
  rw [if_pos h]
  rfl

/-- Witness for C9 at a test install root. -/
theorem C9_non_official_root_witness :
    runProgram "http://example.org/r" [⟨"v", []⟩] ⟨[]⟩
      = ⟨1, "*** Fatal: "
          ++ "Non-official install_roots not currently supported, sorry."
          ++ "\n", []⟩ :=
  C9_non_official_root "http://example.org/r" (by decide) [⟨"v", []⟩] ⟨[]⟩

/-! ## The working-directory context manager (`work_dir`, source 174-187) -/

/-- Process-wide state touched by the script's filesystem operations. -/
structure World where
  cwd : String
  dirs : List String
  files : List (String × String)
deriving Repr, DecidableEq

/-- Path resolution relative to the current working directory. -/
def resolvePath (cwd name : String) : String := cwd ++ "/" ++ name

/-- The filesystem operations a `work_dir` body performs. -/
inductive FsCmd where
  | writeFile : String → String → FsCmd
  | chdirTo : String → FsCmd
  | mkdirAt : String → FsCmd
  | raiseExc : FsCmd
deriving Repr, DecidableEq

/-- One operation: `chdir` into a missing directory or an explicitly
raised exception fails; writes and mkdirs mutate the world. -/
def runCmd (w : World) : FsCmd → (Option PyErr) × World
  | .writeFile n c =>
      (none, { w with files := w.files ++ [(resolvePath w.cwd n, c)] })
  | .chdirTo d =>
      if w.dirs.contains (resolvePath w.cwd d) then
        (none, { w with cwd := resolvePath w.cwd d })
      else (some .osError, w)
  | .mkdirAt d =>
      (none, { w with dirs := w.dirs ++ [resolvePath w.cwd d] })
  | .raiseExc => (some .osError, w)

/-- A body of operations, stopping at the first failure but keeping the
world mutated so far (the Python exception propagates past it). -/
def runCmds : World → List FsCmd → (Option PyErr) × World
  | w, [] => (none, w)
  | w, c :: rest =>
    match runCmd w c with
    | (some e, w') => (some e, w')
    | (none, w') => runCmds w' rest

/-- The entry sequence of `work_dir` (source lines 180-183): create the
directory if missing, then `chdir` into it. -/
def work_dir_enter (dir_name : String) (w : World) : World :=
  let w1 := if w.dirs.contains (resolvePath w.cwd dir_name) then w
    else { w with dirs := w.dirs ++ [resolvePath w.cwd dir_name] }
  { w1 with cwd := resolvePath w1.cwd dir_name }

/-- `work_dir` (source lines 174-187): make the directory if missing,
remember `os.getcwd()`, `chdir` in, run the body, and in a `finally`
`chdir` back — whether or not the body raised; the body's outcome passes
through. -/
def work_dir (dir_name : String) (body : List FsCmd) (w : World) :
    (Option PyErr) × World :=
  let owd := (if w.dirs.contains (resolvePath w.cwd dir_name) then w
    else { w with dirs := w.dirs ++ [resolvePath w.cwd dir_name] }).cwd
  let p := runCmds (work_dir_enter dir_name w) body
  (p.1, { p.2 with cwd := owd })

/-- C10: on exit from a `work_dir` block the process-wide current working
directory equals its value before entry — both when the body completes
and when it raises (the outcome passes through unchanged) — and the
restoration touches nothing else: files and directories are exactly those
left by the body. -/
theorem C10_work_dir_restores (dir_name : String) (body : List FsCmd)
    (w : World) :
    (work_dir dir_name body w).2.cwd = w.cwd
    ∧ (work_dir dir_name body w).2.files
        = (runCmds (work_dir_enter dir_name w) body).2.files
    ∧ (work_dir dir_name body w).2.dirs
        = (runCmds (work_dir_enter dir_name w) body).2.dirs
    ∧ (work_dir dir_name body w).1
        = (runCmds (work_dir_enter dir_name w) body).1 := by
  unfold work_dir
  refine ⟨?_, rfl, rfl, rfl⟩
  split <;> rfl
